import Mathlib

/-!
Shallow embedding of the vault synchronization backend
(fast_sync_backend: routers/sync.py, caching.py, database.py, models.py).

Each vault lives in its own sqlite database file, so one `VaultDB` value
models the whole storage namespace of a single vault.  The in-memory state
cache (caching.py) is a dict keyed by vault id, modelled as an association
list.  Python truthiness on the optional encryption marker strings
(`if existing_encryption_marker and request_encryption_marker:` and so on)
is modelled by `truthy`, which is false exactly on `none` and on the empty
string.  Transactions: sqlite statements executed before `db.commit()` are
connection-local; `db.rollback()` (or closing the connection) discards
them, so an operation that raises before its commit leaves the durable
database exactly as it was.  The boolean `writeFails` parameter of the
mutating operations stands for "some statement of the transaction raised
sqlite3.Error"; on that path the code calls `db.rollback()` and touches
nothing else, which the embedding renders by returning the input state
unchanged.
-/

/-- Payload item of uploadChanges (models.VersionDataPayload). -/
structure VersionDataPayload where
  stableId : String
  filePath : String
  content : String
  mtime : Int
  contentHash : String
  isBinary : Int
  deleted : Bool
deriving DecidableEq

/-- Payload of uploadChanges (models.UploadChangesPayload). -/
structure UploadChangesPayload where
  data : List VersionDataPayload
  encryptionValidation : Option String := none
deriving DecidableEq

/-- Payload of forcePushReset (models.ForcePushResetPayload). -/
structure ForcePushResetPayload where
  encryptionValidation : Option String := none
deriving DecidableEq

/-- Row of the vault_files table (database.py, create_tables): stableId is
the primary key, deleted is stored as an INTEGER (0 or 1). -/
structure VaultFileRow where
  stableId : String
  currentEncryptedFilePath : String
  currentMtime : Int
  currentContentHash : String
  isBinary : Int
  deleted : Nat
deriving DecidableEq

/-- Row of the file_versions table (database.py, create_tables): id is the
AUTOINCREMENT rowid, version_time the server-assigned ISO timestamp. -/
structure FileVersionRow where
  id : Nat
  stableId : String
  encryptedFilePath : String
  encryptedContent : String
  version_time : String
  mtime : Int
  contentHash : String
  isBinary : Int
deriving DecidableEq

/-- One vault database: the three tables of create_tables plus the next
AUTOINCREMENT id.  vault_metadata holds at most one row per vault id and
this database serves a single vault, so the table is `none` (no row) or
`some v` (a row whose nullable encryption_validation column is `v`). -/
structure VaultDB where
  vault_files : List VaultFileRow
  file_versions : List FileVersionRow
  nextVersionId : Nat
  vault_metadata : Option (Option String)
deriving DecidableEq

/-- Reading vault_metadata: `meta_row[..] if meta_row else None` collapses
a missing row and a NULL column to the same `none`. -/
def existingMarker (db : VaultDB) : Option String :=
  db.vault_metadata.getD none

/-- Python truthiness of an optional marker string: None and the empty
string are falsy, every other string is truthy. -/
def truthy : Option String → Bool
  | none => false
  | some s => !s.isEmpty

/-- Response row of the /state endpoint (models.VaultFileStateModel). -/
structure VaultFileStateModel where
  currentEncryptedFilePath : String
  currentMtime : Int
  currentContentHash : String
  isBinary : Int
  deleted : Bool
deriving DecidableEq

/-- Response of the /state endpoint (models.StateResponseModel); the dict
keyed by stableId is an association list in row order. -/
structure StateResponseModel where
  state : List (String × VaultFileStateModel)
  encryptionValidation : Option String
deriving DecidableEq

/-- Entry of the /downloadFiles response (models.DownloadedFileContentModel). -/
structure DownloadedFileContentModel where
  encryptedFilePath : String
  encryptedContent : String
  mtime : Int
  contentHash : String
  isBinary : Int
deriving DecidableEq

/-- Entry of the /fileHistory response (models.HistoryEntryModel). -/
structure HistoryEntryModel where
  filePath : String
  content : String
  mtime : Int
  contentHash : String
  isBinary : Int
  version_time : String
deriving DecidableEq

/-- Entry of the /allFiles response (models.FileListEntryModel). -/
structure FileListEntryModel where
  stableId : String
  currentEncryptedFilePath : String
deriving DecidableEq

/-- Errors surfaced by the sync endpoints: the two 409 gate rejections of
upload_changes and the 500 raised on sqlite3.Error. -/
inductive SyncError
  | encryptionConflict
  | encryptionRequired
  | storageWriteError
deriving DecidableEq

/-- The state cache of caching.py: a dict from vault id to cached
StateResponseModel, as an association list. -/
abbrev StateCache := List (String × StateResponseModel)

/-- caching.invalidate_state_cache: remove the entry for the vault. -/
def invalidate_state_cache (vault_id : String) (c : StateCache) : StateCache :=
  c.filter (fun e => e.1 != vault_id)

/-- caching.get_cached_state: dict lookup. -/
def get_cached_state (vault_id : String) (c : StateCache) : Option StateResponseModel :=
  (c.find? (fun e => e.1 == vault_id)).map (·.2)

/-- caching.set_cached_state: dict assignment. -/
def set_cached_state (vault_id : String) (resp : StateResponseModel) (c : StateCache) : StateCache :=
  c.filter (fun e => e.1 != vault_id) ++ [(vault_id, resp)]

/-- Whole server state for one vault worth of storage plus the process-wide
cache map. -/
structure ServerState where
  db : VaultDB
  cache : StateCache
deriving DecidableEq

/-- The vault_files row written for one upload item (sync.py line 54):
INSERT OR REPLACE with values from the payload, deleted as int(bool). -/
def mkVaultRow (f : VersionDataPayload) : VaultFileRow :=
  ⟨f.stableId, f.filePath, f.mtime, f.contentHash, f.isBinary,
    if f.deleted then 1 else 0⟩

/-- The file_versions row appended for one upload item (sync.py line 60). -/
def mkVersionRow (f : VersionDataPayload) (rowId : Nat) (now : String) : FileVersionRow :=
  ⟨rowId, f.stableId, f.filePath, f.content, now, f.mtime, f.contentHash, f.isBinary⟩

/-- INSERT OR REPLACE on vault_files: the primary key is stableId, so the
conflicting row is deleted and the fresh row inserted (at a fresh rowid,
hence at the end in scan order). -/
def upsertVaultFile (rows : List VaultFileRow) (r : VaultFileRow) : List VaultFileRow :=
  rows.filter (fun q => q.stableId != r.stableId) ++ [r]

/-- The two statements executed per item of the upload loop (sync.py
lines 53-65): upsert the logical state row and append one version row. -/
def applyItem (now : String) (db : VaultDB) (f : VersionDataPayload) : VaultDB :=
  { db with
    vault_files := upsertVaultFile db.vault_files (mkVaultRow f)
    file_versions := db.file_versions ++ [mkVersionRow f db.nextVersionId now]
    nextVersionId := db.nextVersionId + 1 }

/-- The write section of upload_changes after the gate (sync.py lines
48-65): persist the marker when the request marker is truthy, then run the
item loop with the single per-request timestamp `now`. -/
def uploadBody (db : VaultDB) (p : UploadChangesPayload) (now : String) : VaultDB :=
  p.data.foldl (applyItem now)
    (if truthy p.encryptionValidation then
      { db with vault_metadata := some p.encryptionValidation }
     else db)

/-- upload_changes (sync.py lines 19-83).  Gate first (lines 39-46), then
the writes, then commit and cache invalidation (lines 67-68).  On a gate
rejection the HTTPException is raised before any INSERT, and on
sqlite3.Error the rollback discards the uncommitted writes, so both error
paths return the input state unchanged. -/
def upload_changes (s : ServerState) (vault_id : String) (p : UploadChangesPayload)
    (now : String) (writeFails : Bool) : Except SyncError Unit × ServerState :=
  if truthy (existingMarker s.db) && truthy p.encryptionValidation then
    if existingMarker s.db ≠ p.encryptionValidation then
      (.error .encryptionConflict, s)
    else if writeFails then (.error .storageWriteError, s)
    else (.ok (), ⟨uploadBody s.db p now, invalidate_state_cache vault_id s.cache⟩)
  else if truthy (existingMarker s.db) && !(truthy p.encryptionValidation) then
    (.error .encryptionRequired, s)
  else if writeFails then (.error .storageWriteError, s)
  else (.ok (), ⟨uploadBody s.db p now, invalidate_state_cache vault_id s.cache⟩)

/-- Conversion of a vault_files row to the /state response model
(sync.py lines 106-114); deleted comes back as bool(row). -/
def rowToStateModel (r : VaultFileRow) : VaultFileStateModel :=
  ⟨r.currentEncryptedFilePath, r.currentMtime, r.currentContentHash, r.isBinary,
    r.deleted != 0⟩

/-- The database read of download_state (sync.py lines 102-123): the full
vault_files scan keyed by stableId plus the metadata marker. -/
def readCurrentState (db : VaultDB) : StateResponseModel :=
  ⟨db.vault_files.map (fun r => (r.stableId, rowToStateModel r)), existingMarker db⟩

/-- download_state (sync.py lines 86-129): serve from cache on a hit;
on a miss read the database, populate the cache and respond. -/
def download_state (s : ServerState) (vault_id : String) : StateResponseModel × ServerState :=
  match get_cached_state vault_id s.cache with
  | some r => (r, s)
  | none =>
      (readCurrentState s.db,
        ⟨s.db, set_cached_state vault_id (readCurrentState s.db) s.cache⟩)

/-- Conversion of a file_versions row to the /downloadFiles entry
(sync.py lines 168-174). -/
def mkDownloaded (r : FileVersionRow) : DownloadedFileContentModel :=
  ⟨r.encryptedFilePath, r.encryptedContent, r.mtime, r.contentHash, r.isBinary⟩

/-- Loop body of download_files (sync.py lines 165-174): keep a row when
its path is requested and no entry for that path was kept yet. -/
def downloadStep (requested : List String)
    (acc : List (String × DownloadedFileContentModel)) (row : FileVersionRow) :
    List (String × DownloadedFileContentModel) :=
  if row.encryptedFilePath ∈ requested then
    if (acc.find? (fun q => q.1 == row.encryptedFilePath)).isNone then
      acc ++ [(row.encryptedFilePath, mkDownloaded row)]
    else acc
  else acc

/-- download_files (sync.py lines 139-190).  The empty request returns
before the try block (line 150), so the second component records whether
storage was read at all.  Otherwise the SQL IN query selects the matching
version rows and the loop keeps the first row per requested path. -/
def download_files (db : VaultDB) (requested : List String) :
    List DownloadedFileContentModel × Bool :=
  if requested.isEmpty then ([], false)
  else
    (((db.file_versions.filter (fun r => decide (r.encryptedFilePath ∈ requested))).foldl
      (downloadStep requested) []).map (·.2), true)

/-- Ordering used by the history query: ORDER BY version_time DESC. -/
def histDesc (a b : FileVersionRow) : Prop :=
  b.version_time ≤ a.version_time

instance : DecidableRel histDesc := fun a b =>
  inferInstanceAs (Decidable (b.version_time ≤ a.version_time))

instance : IsTotal FileVersionRow histDesc :=
  ⟨fun a b => le_total b.version_time a.version_time⟩

instance : IsTrans FileVersionRow histDesc :=
  ⟨fun _ _ _ hab hbc => le_trans hbc hab⟩

/-- Conversion of a file_versions row to the /fileHistory entry
(sync.py lines 212-222). -/
def toHistoryEntry (r : FileVersionRow) : HistoryEntryModel :=
  ⟨r.encryptedFilePath, r.encryptedContent, r.mtime, r.contentHash, r.isBinary,
    r.version_time⟩

/-- get_file_history (sync.py lines 193-234): SELECT the rows of the given
stableId ORDER BY version_time DESC; an empty result is returned as the
empty list, not an error. -/
def get_file_history (db : VaultDB) (stable_id : String) : List HistoryEntryModel :=
  (List.insertionSort histDesc
    (db.file_versions.filter (fun r => r.stableId == stable_id))).map toHistoryEntry

/-- Ordering used by the allFiles query: ORDER BY stableId. -/
def sidAsc (a b : VaultFileRow) : Prop :=
  a.stableId ≤ b.stableId

instance : DecidableRel sidAsc := fun a b =>
  inferInstanceAs (Decidable (a.stableId ≤ b.stableId))

/-- get_all_files (sync.py lines 237-275): list (stableId, path) pairs of
every vault_files row, ordered by stableId. -/
def get_all_files (db : VaultDB) : List FileListEntryModel :=
  (List.insertionSort sidAsc db.vault_files).map
    (fun r => ⟨r.stableId, r.currentEncryptedFilePath⟩)

/-- force_push_reset (sync.py lines 278-321): delete every file_versions
row and every vault_files row, store the supplied marker (nullable) in
vault_metadata, commit, invalidate the cache.  The gate of upload_changes
is not consulted.  On sqlite3.Error the rollback leaves everything
unchanged.  DELETE does not reset the AUTOINCREMENT counter. -/
def force_push_reset (s : ServerState) (vault_id : String) (q : ForcePushResetPayload)
    (writeFails : Bool) : Except SyncError Unit × ServerState :=
  if writeFails then (.error .storageWriteError, s)
  else
    (.ok (),
      ⟨⟨[], [], s.db.nextVersionId, some q.encryptionValidation⟩,
        invalidate_state_cache vault_id s.cache⟩)

/-- The most recently uploaded item of a request for a given stableId:
the upload loop processes items in list order, so the last matching item
is the one whose values survive in vault_files. -/
def lastWins (items : List VersionDataPayload) (sid : String) : Option VersionDataPayload :=
  items.foldl (fun acc g => if g.stableId == sid then some g else acc) none

/-- Lookup of the vault_files row of a stableId (the primary key). -/
def findState (db : VaultDB) (sid : String) : Option VaultFileRow :=
  db.vault_files.find? (fun r => r.stableId == sid)

/-- Invariant of the vault_files table: stableId is the primary key, so
the column values are pairwise distinct. -/
def KeysUnique (db : VaultDB) : Prop :=
  (db.vault_files.map (·.stableId)).Nodup

instance (db : VaultDB) : Decidable (KeysUnique db) :=
  inferInstanceAs (Decidable (List.Nodup _))

/-- The file_versions rows appended by the upload loop for a list of
items, starting at a given AUTOINCREMENT id, all carrying the single
per-request timestamp. -/
def versionRowsOf (items : List VersionDataPayload) (startId : Nat) (now : String) :
    List FileVersionRow :=
  match items with
  | [] => []
  | f :: rest => mkVersionRow f startId now :: versionRowsOf rest (startId + 1) now

lemma foldl_meta (now : String) (items : List VersionDataPayload) (db : VaultDB) :
    (items.foldl (applyItem now) db).vault_metadata = db.vault_metadata := by
  induction items generalizing db with
  | nil => rfl
  | cons f rest ih => simpa [applyItem] using ih _

lemma foldl_versions (now : String) (items : List VersionDataPayload) (db : VaultDB) :
    (items.foldl (applyItem now) db).file_versions
      = db.file_versions ++ versionRowsOf items db.nextVersionId now := by
  induction items generalizing db with
  | nil => simp [versionRowsOf]
  | cons f rest ih =>
      simp only [List.foldl_cons, ih, applyItem, versionRowsOf, List.append_assoc,
        List.singleton_append]

lemma versionRowsOf_time {now : String} {items : List VersionDataPayload} {n : Nat}
    {r : FileVersionRow} (hr : r ∈ versionRowsOf items n now) : r.version_time = now := by
  induction items generalizing n with
  | nil => simp [versionRowsOf] at hr
  | cons f rest ih =>
      simp only [versionRowsOf, List.mem_cons] at hr
      rcases hr with h | h
      · subst h; rfl
      · exact ih h

lemma versionRowsOf_filter_length (now sid : String) (items : List VersionDataPayload) (n : Nat) :
    ((versionRowsOf items n now).filter (fun r => r.stableId == sid)).length
      = (items.filter (fun g => g.stableId == sid)).length := by
  induction items generalizing n with
  | nil => rfl
  | cons f rest ih =>
      simp only [versionRowsOf, List.filter_cons, mkVersionRow]
      by_cases h : (f.stableId == sid) = true
      · simp [h, ih]
      · simp only [Bool.not_eq_true] at h
        simp [h, ih]

lemma find?_upsert (rows : List VaultFileRow) (r : VaultFileRow) (sid : String) :
    (upsertVaultFile rows r).find? (fun q => q.stableId == sid)
      = if r.stableId == sid then some r
        else rows.find? (fun q => q.stableId == sid) := by
  induction rows with
  | nil =>
      by_cases h : (r.stableId == sid) = true
      · simp [upsertVaultFile, h]
      · simp only [Bool.not_eq_true] at h
        simp [upsertVaultFile, h]
  | cons q rows ih =>
      by_cases hq : q.stableId = r.stableId
      · have h1 : (q.stableId != r.stableId) = false := by simp [hq]
        by_cases h2 : (r.stableId == sid) = true
        · have h3 : (q.stableId == sid) = true := by
            simp only [beq_iff_eq] at h2 ⊢; rw [hq, h2]
          simp only [upsertVaultFile, List.filter_cons, h1] at ih ⊢
          simp [ih, h2]
        · simp only [Bool.not_eq_true] at h2
          have h3 : (q.stableId == sid) = false := by
            simp only [beq_eq_false_iff_ne] at h2 ⊢; rw [hq]; exact h2
          simp only [upsertVaultFile, List.filter_cons, h1] at ih ⊢
          simp [ih, h2, h3, List.find?_cons, h3]
      · have h1 : (q.stableId != r.stableId) = true := by simp [hq]
        simp only [upsertVaultFile, List.filter_cons, h1] at ih ⊢
        by_cases h3 : (q.stableId == sid) = true
        · have h2 : (r.stableId == sid) = false := by
            simp only [beq_iff_eq] at h3
            simp only [beq_eq_false_iff_ne]
            rw [← h3]; exact fun hh => hq hh.symm
          simp [List.find?_cons, h3, h2]
        · simp only [Bool.not_eq_true] at h3
          simp [List.find?_cons, h3, ih]

lemma findState_applyItem (now : String) (db : VaultDB) (f : VersionDataPayload) (sid : String) :
    findState (applyItem now db f) sid
      = if f.stableId == sid then some (mkVaultRow f) else findState db sid := by
  simp only [findState, applyItem, find?_upsert, mkVaultRow]

lemma lastWins_foldl (sid : String) (items : List VersionDataPayload)
    (acc : Option VersionDataPayload) :
    items.foldl (fun a g => if g.stableId == sid then some g else a) acc
      = match lastWins items sid with
        | some g => some g
        | none => acc := by
  induction items generalizing acc with
  | nil => rfl
  | cons g rest ih =>
      simp only [lastWins, List.foldl_cons] at ih ⊢
      rw [ih (if (g.stableId == sid) = true then some g else acc),
        ih (if (g.stableId == sid) = true then some g else none)]
      cases hrest : List.foldl (fun a g => if g.stableId == sid then some g else a) none rest with
      | some x => rfl
      | none =>
          by_cases h : (g.stableId == sid) = true
          · simp only [h, if_true]
          · simp [h]

lemma foldl_findState (now sid : String) (items : List VersionDataPayload) (db : VaultDB) :
    findState (items.foldl (applyItem now) db) sid
      = match lastWins items sid with
        | some g => some (mkVaultRow g)
        | none => findState db sid := by
  induction items generalizing db with
  | nil => rfl
  | cons f rest ih =>
      simp only [List.foldl_cons, ih]
      have hl : lastWins (f :: rest) sid
          = match lastWins rest sid with
            | some g => some g
            | none => if f.stableId == sid then some f else none := by
        simp only [lastWins, List.foldl_cons]
        exact lastWins_foldl sid rest _
      rw [hl]
      cases hrest : lastWins rest sid with
      | some g => rfl
      | none =>
          simp only [findState_applyItem]
          by_cases h : (f.stableId == sid) = true
          · simp [h]
          · simp only [Bool.not_eq_true] at h
            simp [h]

lemma keys_upsert (rows : List VaultFileRow) (r : VaultFileRow)
    (h : (rows.map (·.stableId)).Nodup) :
    ((upsertVaultFile rows r).map (·.stableId)).Nodup := by
  simp only [upsertVaultFile, List.map_append, List.map_cons, List.map_nil]
  apply List.Nodup.append
  · exact h.sublist (List.Sublist.map _ (List.filter_sublist rows))
  · exact List.nodup_singleton _
  · intro x hx hy
    simp only [List.mem_singleton] at hy
    subst hy
    simp only [List.mem_map, List.mem_filter] at hx
    obtain ⟨q, ⟨_, hq⟩, hqs⟩ := hx
    rw [bne_iff_ne] at hq
    exact hq hqs

lemma foldl_keys (now : String) (items : List VersionDataPayload) (db : VaultDB)
    (h : (db.vault_files.map (·.stableId)).Nodup) :
    (((items.foldl (applyItem now) db).vault_files).map (·.stableId)).Nodup := by
  induction items generalizing db with
  | nil => exact h
  | cons f rest ih =>
      exact ih _ (keys_upsert _ _ h)

lemma uploadBody_vault_files (db : VaultDB) (p : UploadChangesPayload) (now : String) :
    (uploadBody db p now).vault_files
      = (p.data.foldl (applyItem now)
          { db with vault_metadata :=
              if truthy p.encryptionValidation then some p.encryptionValidation
              else db.vault_metadata }).vault_files := by
  unfold uploadBody
  by_cases h : truthy p.encryptionValidation = true
  · simp [h]
  · simp only [Bool.not_eq_true] at h
    simp [h]

lemma uploadBody_meta (db : VaultDB) (p : UploadChangesPayload) (now : String) :
    (uploadBody db p now).vault_metadata
      = if truthy p.encryptionValidation then some p.encryptionValidation
        else db.vault_metadata := by
  unfold uploadBody
  by_cases h : truthy p.encryptionValidation = true
  · simp [h, foldl_meta]
  · simp only [Bool.not_eq_true] at h
    simp [h, foldl_meta]

lemma upload_ok_state (s : ServerState) (vid : String) (p : UploadChangesPayload) (now : String)
    (hok : (upload_changes s vid p now false).1 = .ok ()) :
    (upload_changes s vid p now false).2
      = ⟨uploadBody s.db p now, invalidate_state_cache vid s.cache⟩ := by
  unfold upload_changes at hok ⊢
  split at hok
  · split at hok
    · exact absurd hok (by simp)
    · rename_i h1 h2
      simp only [h1, if_true]
      rw [if_neg h2]
      rfl
  · split at hok
    · exact absurd hok (by simp)
    · rename_i h1 h2
      rw [if_neg h1, if_neg h2]
      rfl

lemma get_cached_invalidate (vid : String) (c : StateCache) :
    get_cached_state vid (invalidate_state_cache vid c) = none := by
  unfold get_cached_state invalidate_state_cache
  rw [List.find?_eq_none.mpr, Option.map_none']
  intro e he
  rw [List.mem_filter] at he
  have := he.2
  rw [bne_iff_ne] at this
  simp only [beq_iff_eq]
  exact this

lemma hist_length (db : VaultDB) (sid : String) :
    (get_file_history db sid).length
      = (db.file_versions.filter (fun r => r.stableId == sid)).length := by
  unfold get_file_history
  rw [List.length_map]
  exact (List.perm_insertionSort histDesc _).length_eq

/-- C1: an upload to a vault whose stored encryption marker is set
(truthy, following the code) is rejected with the conflict error when the
request supplies a different (truthy) marker, and with the required error
when the request supplies no (truthy) marker; in both cases the whole
server state, hence every vault_files, file_versions and vault_metadata
row, is exactly as before the call. -/
theorem upload_gate_rejects_without_writes
    (s : ServerState) (vid : String) (p : UploadChangesPayload) (now : String) (wf : Bool)
    (hset : truthy (existingMarker s.db) = true) :
    (truthy p.encryptionValidation = true → existingMarker s.db ≠ p.encryptionValidation →
      upload_changes s vid p now wf = (.error .encryptionConflict, s)) ∧
    (truthy p.encryptionValidation = false →
      upload_changes s vid p now wf = (.error .encryptionRequired, s)) := by
  constructor
  · intro hinc hne
    simp [upload_changes, hset, hinc, hne]
  · intro hinc
    simp [upload_changes, hset, hinc]

theorem upload_gate_rejects_without_writes_witness :
    upload_changes ⟨⟨[], [], 1, some (some "A")⟩, []⟩ "v" ⟨[], some "B"⟩ "t" false
      = (.error .encryptionConflict, ⟨⟨[], [], 1, some (some "A")⟩, []⟩) ∧
    upload_changes ⟨⟨[], [], 1, some (some "A")⟩, []⟩ "v" ⟨[], none⟩ "t" false
      = (.error .encryptionRequired, ⟨⟨[], [], 1, some (some "A")⟩, []⟩) :=
  ⟨(upload_gate_rejects_without_writes _ "v" _ "t" false (by decide)).1 (by decide) (by decide),
   (upload_gate_rejects_without_writes _ "v" _ "t" false (by decide)).2 (by decide)⟩

/-- C5: when a mutation fails with a storage-level write error, the
rollback leaves every row of the vault exactly as before the call and the
cache is neither invalidated nor repopulated: the returned server state is
the input state, for upload_changes and for force_push_reset alike. -/
theorem failed_mutation_rolls_back
    (s : ServerState) (vid : String) (p : UploadChangesPayload) (q : ForcePushResetPayload)
    (now : String)
    (h : (upload_changes s vid p now true).1 = .error .storageWriteError) :
    (upload_changes s vid p now true).2 = s ∧
    force_push_reset s vid q true = (.error .storageWriteError, s) := by
  refine ⟨?_, rfl⟩
  unfold upload_changes
  split
  · split
    · rfl
    · rfl
  · split
    · rfl
    · rfl

theorem failed_mutation_rolls_back_witness :
    (upload_changes ⟨⟨[], [], 1, none⟩, []⟩ "v" ⟨[], none⟩ "t" true).2 = ⟨⟨[], [], 1, none⟩, []⟩ ∧
    force_push_reset ⟨⟨[], [], 1, none⟩, []⟩ "v" ⟨none⟩ true
      = (.error .storageWriteError, ⟨⟨[], [], 1, none⟩, []⟩) :=
  failed_mutation_rolls_back _ "v" _ _ "t" rfl

/-- C7: force_push_reset succeeds whatever the prior stored marker (the
gate of upload_changes is not consulted), empties the vault_files and
file_versions tables, stores the supplied marker even when it is null, and
afterwards get_all_files returns the empty list and get_file_history
returns the empty list for every stableId. -/
theorem force_reset_wipes_vault
    (s : ServerState) (vid sid : String) (q : ForcePushResetPayload) :
    (force_push_reset s vid q false).1 = .ok () ∧
    (force_push_reset s vid q false).2.db.vault_files = [] ∧
    (force_push_reset s vid q false).2.db.file_versions = [] ∧
    existingMarker (force_push_reset s vid q false).2.db = q.encryptionValidation ∧
    get_all_files (force_push_reset s vid q false).2.db = [] ∧
    get_file_history (force_push_reset s vid q false).2.db sid = [] :=
  ⟨rfl, rfl, rfl, rfl, rfl, rfl⟩

lemma uploadBody_versions (db : VaultDB) (p : UploadChangesPayload) (now : String) :
    (uploadBody db p now).file_versions
      = db.file_versions ++ versionRowsOf p.data db.nextVersionId now := by
  unfold uploadBody
  by_cases h : truthy p.encryptionValidation = true
  · simp [h, foldl_versions]
  · simp only [Bool.not_eq_true] at h
    simp [h, foldl_versions]

/-- Sample payload uploading two items for the same stableId. -/
def uploadTwice : UploadChangesPayload :=
  ⟨[⟨"s1", "p1", "c1", 5, "h1", 0, false⟩, ⟨"s1", "p2", "c2", 6, "h2", 0, false⟩], none⟩

/-- C2: a successful upload keeps the vault_files stableId column free of
duplicates (exactly one row per stableId), the surviving row of a stableId
carries the field values of the most recently uploaded item for it
(last-write-wins, no merging), and get_file_history grows by exactly one
entry per uploaded item for that stableId. -/
theorem upload_last_write_wins
    (s : ServerState) (vid : String) (p : UploadChangesPayload) (now sid : String)
    (f : VersionDataPayload)
    (hu : KeysUnique s.db)
    (hok : (upload_changes s vid p now false).1 = .ok ())
    (hf : lastWins p.data sid = some f) :
    KeysUnique (upload_changes s vid p now false).2.db ∧
    findState (upload_changes s vid p now false).2.db sid = some (mkVaultRow f) ∧
    (get_file_history (upload_changes s vid p now false).2.db sid).length
      = (get_file_history s.db sid).length
        + (p.data.filter (fun g => g.stableId == sid)).length := by
  rw [upload_ok_state s vid p now hok]
  refine ⟨?_, ?_, ?_⟩
  · show ((uploadBody s.db p now).vault_files.map (·.stableId)).Nodup
    rw [uploadBody_vault_files]
    exact foldl_keys now p.data _ hu
  · show findState (uploadBody s.db p now) sid = _
    unfold uploadBody
    by_cases h : truthy p.encryptionValidation = true
    · simp only [h, if_true, foldl_findState, hf]
    · simp only [Bool.not_eq_true] at h
      simp only [h, Bool.false_eq_true, if_false, foldl_findState, hf]
  · show (get_file_history (uploadBody s.db p now) sid).length = _
    rw [hist_length, hist_length, uploadBody_versions, List.filter_append,
      List.length_append, versionRowsOf_filter_length]

theorem upload_last_write_wins_witness :
    KeysUnique (upload_changes ⟨⟨[], [], 1, none⟩, []⟩ "v" uploadTwice "t" false).2.db ∧
    findState (upload_changes ⟨⟨[], [], 1, none⟩, []⟩ "v" uploadTwice "t" false).2.db "s1"
      = some (mkVaultRow ⟨"s1", "p2", "c2", 6, "h2", 0, false⟩) ∧
    (get_file_history
        (upload_changes ⟨⟨[], [], 1, none⟩, []⟩ "v" uploadTwice "t" false).2.db "s1").length
      = (get_file_history (⟨⟨[], [], 1, none⟩, []⟩ : ServerState).db "s1").length
        + (uploadTwice.data.filter (fun g => g.stableId == "s1")).length :=
  upload_last_write_wins _ "v" uploadTwice "t" "s1" _ (by decide) rfl (by decide)

/-- C10: the file_versions rows appended by one successful upload are
exactly a suffix after the untouched prior rows, every appended row
carries the single per-request timestamp, and hence any two rows appended
by the same upload have equal version_time. -/
theorem upload_single_version_time
    (s : ServerState) (vid : String) (p : UploadChangesPayload) (now : String)
    (r1 r2 : FileVersionRow)
    (hok : (upload_changes s vid p now false).1 = .ok ())
    (h1 : r1 ∈ (upload_changes s vid p now false).2.db.file_versions.drop
        s.db.file_versions.length)
    (h2 : r2 ∈ (upload_changes s vid p now false).2.db.file_versions.drop
        s.db.file_versions.length) :
    (upload_changes s vid p now false).2.db.file_versions.take s.db.file_versions.length
      = s.db.file_versions ∧
    r1.version_time = now ∧ r2.version_time = r1.version_time := by
  rw [upload_ok_state s vid p now hok] at h1 h2 ⊢
  have hv : (uploadBody s.db p now).file_versions
      = s.db.file_versions ++ versionRowsOf p.data s.db.nextVersionId now :=
    uploadBody_versions s.db p now
  simp only [hv, List.drop_left, List.take_left] at h1 h2 ⊢
  exact ⟨by trivial, versionRowsOf_time h1, (versionRowsOf_time h2).trans (versionRowsOf_time h1).symm⟩

theorem upload_single_version_time_witness :
    (upload_changes ⟨⟨[], [], 1, none⟩, []⟩ "v" uploadTwice "t" false).2.db.file_versions.take
        (⟨⟨[], [], 1, none⟩, []⟩ : ServerState).db.file_versions.length
      = (⟨⟨[], [], 1, none⟩, []⟩ : ServerState).db.file_versions ∧
    (⟨1, "s1", "p1", "c1", "t", 5, "h1", 0⟩ : FileVersionRow).version_time = "t" ∧
    (⟨2, "s1", "p2", "c2", "t", 6, "h2", 0⟩ : FileVersionRow).version_time
      = (⟨1, "s1", "p1", "c1", "t", 5, "h1", 0⟩ : FileVersionRow).version_time :=
  upload_single_version_time _ "v" uploadTwice "t" _ _ rfl (by decide) (by decide)

/-- C4: after a successful upload_changes, and after a successful
force_push_reset, the cache entry of the vault has been removed (the
invalidation runs after the commit, inside the operation, before it
returns), so a download_state executed right afterwards misses the cache
and returns exactly the committed post-mutation database state. -/
theorem mutation_invalidates_cache
    (s : ServerState) (vid : String) (p : UploadChangesPayload) (q : ForcePushResetPayload)
    (now : String)
    (hok : (upload_changes s vid p now false).1 = .ok ()) :
    (get_cached_state vid (upload_changes s vid p now false).2.cache = none ∧
      (download_state (upload_changes s vid p now false).2 vid).1
        = readCurrentState (upload_changes s vid p now false).2.db) ∧
    (get_cached_state vid (force_push_reset s vid q false).2.cache = none ∧
      (download_state (force_push_reset s vid q false).2 vid).1
        = readCurrentState (force_push_reset s vid q false).2.db) := by
  have key : ∀ t : ServerState, get_cached_state vid t.cache = none →
      (download_state t vid).1 = readCurrentState t.db := by
    intro t ht
    unfold download_state
    rw [ht]
  have hu : (upload_changes s vid p now false).2.cache
      = invalidate_state_cache vid s.cache := by
    rw [upload_ok_state s vid p now hok]
  have hu2 : get_cached_state vid (upload_changes s vid p now false).2.cache = none := by
    rw [hu]; exact get_cached_invalidate vid s.cache
  have hr2 : get_cached_state vid (force_push_reset s vid q false).2.cache = none :=
    get_cached_invalidate vid s.cache
  exact ⟨⟨hu2, key _ hu2⟩, hr2, key _ hr2⟩

theorem mutation_invalidates_cache_witness :
    (get_cached_state "v" (upload_changes ⟨⟨[], [], 1, none⟩, []⟩ "v" uploadTwice "t" false).2.cache
        = none ∧
      (download_state (upload_changes ⟨⟨[], [], 1, none⟩, []⟩ "v" uploadTwice "t" false).2 "v").1
        = readCurrentState (upload_changes ⟨⟨[], [], 1, none⟩, []⟩ "v" uploadTwice "t" false).2.db) ∧
    (get_cached_state "v" (force_push_reset ⟨⟨[], [], 1, none⟩, []⟩ "v" ⟨none⟩ false).2.cache
        = none ∧
      (download_state (force_push_reset ⟨⟨[], [], 1, none⟩, []⟩ "v" ⟨none⟩ false).2 "v").1
        = readCurrentState (force_push_reset ⟨⟨[], [], 1, none⟩, []⟩ "v" ⟨none⟩ false).2.db) :=
  mutation_invalidates_cache _ "v" uploadTwice ⟨none⟩ "t" rfl

/-- C8: get_file_history returns, as a success value, exactly the
file_versions rows whose stableId equals the argument (a permutation of
the filtered table converted to response entries), ordered by
version_time descending, and the result is empty exactly when no such row
exists. -/
theorem history_filtered_sorted_desc (db : VaultDB) (sid : String) :
    (get_file_history db sid).Perm
        ((db.file_versions.filter (fun r => r.stableId == sid)).map toHistoryEntry) ∧
    (get_file_history db sid).Pairwise (fun a b => b.version_time ≤ a.version_time) ∧
    (get_file_history db sid = []
      ↔ db.file_versions.filter (fun r => r.stableId == sid) = []) := by
  have hperm : (get_file_history db sid).Perm
      ((db.file_versions.filter (fun r => r.stableId == sid)).map toHistoryEntry) :=
    (List.perm_insertionSort histDesc _).map toHistoryEntry
  refine ⟨hperm, ?_, ?_⟩
  · have hs : List.Sorted histDesc
        (List.insertionSort histDesc (db.file_versions.filter (fun r => r.stableId == sid))) :=
      List.sorted_insertionSort histDesc _
    exact List.Pairwise.map toHistoryEntry (fun a b h => h) hs
  · constructor
    · intro h
      have := hperm.symm
      rw [h] at this
      have h2 := this.eq_nil
      rwa [List.map_eq_nil_iff] at h2
    · intro h
      have h2 : (db.file_versions.filter (fun r => r.stableId == sid)).map toHistoryEntry
          = [] := by rw [h]; rfl
      rw [h2] at hperm
      exact hperm.eq_nil

/-- Invariant of the download_files loop accumulator: keys are distinct,
every kept entry is keyed by its own path, was requested, and has a
matching row in the table. -/
def DownloadAccOk (requested : List String) (all : List FileVersionRow)
    (acc : List (String × DownloadedFileContentModel)) : Prop :=
  (acc.map (·.1)).Nodup ∧
  ∀ pr ∈ acc, pr.2.encryptedFilePath = pr.1 ∧ pr.1 ∈ requested ∧
    ∃ r ∈ all, r.encryptedFilePath = pr.1

lemma downloadStep_ok {requested : List String} {all : List FileVersionRow}
    {acc : List (String × DownloadedFileContentModel)} (row : FileVersionRow)
    (hrow : row ∈ all) (h : DownloadAccOk requested all acc) :
    DownloadAccOk requested all (downloadStep requested acc row) := by
  obtain ⟨hn, hp⟩ := h
  unfold downloadStep
  by_cases h1 : row.encryptedFilePath ∈ requested
  · rw [if_pos h1]
    by_cases h2 : (acc.find? (fun q => q.1 == row.encryptedFilePath)).isNone = true
    · rw [if_pos h2]
      constructor
      · rw [List.map_append]
        refine List.Nodup.append hn (List.nodup_singleton _) ?_
        intro x hx hy
        simp only [List.map_cons, List.map_nil, List.mem_singleton] at hy
        subst hy
        rw [Option.isNone_iff_eq_none, List.find?_eq_none] at h2
        simp only [List.mem_map] at hx
        obtain ⟨pr, hpr, hpr1⟩ := hx
        have := h2 pr hpr
        rw [beq_iff_eq] at this
        exact this hpr1
      · intro pr hpr
        rw [List.mem_append] at hpr
        rcases hpr with hin | hin
        · exact hp pr hin
        · simp only [List.mem_singleton] at hin
          subst hin
          exact ⟨rfl, h1, row, hrow, rfl⟩
    · rw [if_neg h2]
      exact ⟨hn, hp⟩
  · rw [if_neg h1]
    exact ⟨hn, hp⟩

lemma downloadFold_ok (requested : List String) (all : List FileVersionRow)
    (rows : List FileVersionRow) :
    ∀ acc, (∀ r ∈ rows, r ∈ all) → DownloadAccOk requested all acc →
      DownloadAccOk requested all (rows.foldl (downloadStep requested) acc) := by
  induction rows with
  | nil => intro acc _ h; exact h
  | cons r rows ih =>
      intro acc hsub h
      exact ih _ (fun x hx => hsub x (List.mem_cons_of_mem _ hx))
        (downloadStep_ok r (hsub r (List.mem_cons_self _ _)) h)

/-- C9: a download_files result holds at most one entry per path (the
entry paths are pairwise distinct), every entry is for a requested path
that has a matching stored version (so unmatched requested paths and
unrequested paths contribute nothing), and the empty request yields the
empty result with no storage read performed. -/
theorem download_files_dedup (db : VaultDB) (paths : List String) :
    ((download_files db paths).1.map (·.encryptedFilePath)).Nodup ∧
    (∀ e ∈ (download_files db paths).1, e.encryptedFilePath ∈ paths ∧
        ∃ r ∈ db.file_versions, r.encryptedFilePath = e.encryptedFilePath) ∧
    download_files db [] = ([], false) := by
  have key : DownloadAccOk paths db.file_versions
      ((db.file_versions.filter (fun r => decide (r.encryptedFilePath ∈ paths))).foldl
        (downloadStep paths) []) := by
    refine downloadFold_ok paths db.file_versions _ [] ?_ ?_
    · intro r hr
      exact (List.mem_filter.mp hr).1
    · exact ⟨List.nodup_nil, fun pr hpr => absurd hpr (List.not_mem_nil pr)⟩
  by_cases hp : paths.isEmpty = true
  · have hpaths : paths = [] := List.isEmpty_iff.mp hp
    subst hpaths
    refine ⟨?_, ?_, rfl⟩
    · show ((download_files db []).1.map (·.encryptedFilePath)).Nodup
      rw [show download_files db [] = ([], false) from rfl]
      exact List.nodup_nil
    · intro e he
      rw [show download_files db [] = ([], false) from rfl] at he
      exact absurd he (List.not_mem_nil e)
  · have hdf : download_files db paths
        = (((db.file_versions.filter
            (fun r => decide (r.encryptedFilePath ∈ paths))).foldl
          (downloadStep paths) []).map (·.2), true) := by
      unfold download_files
      rw [if_neg hp]
    refine ⟨?_, ?_, rfl⟩
    · rw [hdf]
      simp only [List.map_map]
      have heq : (((db.file_versions.filter
            (fun r => decide (r.encryptedFilePath ∈ paths))).foldl
          (downloadStep paths) []).map ((·.encryptedFilePath) ∘ (·.2)))
          = (((db.file_versions.filter
            (fun r => decide (r.encryptedFilePath ∈ paths))).foldl
          (downloadStep paths) []).map (·.1)) := by
        apply List.map_congr_left
        intro pr hpr
        exact (key.2 pr hpr).1
      rw [heq]
      exact key.1
    · intro e he
      rw [hdf] at he
      simp only [List.mem_map] at he
      obtain ⟨pr, hpr, hpre⟩ := he
      obtain ⟨h1, h2, h3⟩ := key.2 pr hpr
      subst hpre
      rw [h1]
      exact ⟨h2, h3⟩

/-- C3 counterexample: the stored marker can be the non-null empty string
(force_push_reset stores any supplied marker verbatim, last conjunct), and
on such a vault an upload supplying the different marker B passes the gate
(Python truthiness treats the empty string as unset) and replaces the
stored non-null marker.  This refutes the claim for non-null v in general;
it survives with non-empty v. -/
theorem upload_can_replace_empty_marker :
    existingMarker (⟨⟨[], [], 1, some (some "")⟩, []⟩ : ServerState).db = some "" ∧
    (some "" : Option String) ≠ none ∧
    (upload_changes ⟨⟨[], [], 1, some (some "")⟩, []⟩ "v" ⟨[], some "B"⟩ "t" false).1
      = .ok () ∧
    existingMarker
        (upload_changes ⟨⟨[], [], 1, some (some "")⟩, []⟩ "v" ⟨[], some "B"⟩ "t" false).2.db
      = some "B" ∧
    (some "B" : Option String) ≠ some "" ∧
    (force_push_reset ⟨⟨[], [], 1, none⟩, []⟩ "v" ⟨some ""⟩ false).2.db.vault_metadata
      = some (some "") :=
  ⟨rfl, by decide, rfl, rfl, by decide, rfl⟩

/-- C3 amended: for every vault whose stored marker is a non-empty value
v, no successful upload can leave the stored marker different from v: the
gate rejects a missing or different request marker, and a matching request
marker is re-persisted unchanged. -/
theorem upload_preserves_nonempty_marker
    (s : ServerState) (vid : String) (p : UploadChangesPayload) (now : String)
    (wf : Bool) (v : String)
    (hv : existingMarker s.db = some v) (hne : v ≠ "")
    (hok : (upload_changes s vid p now wf).1 = .ok ()) :
    existingMarker (upload_changes s vid p now wf).2.db = some v := by
  have htr : truthy (existingMarker s.db) = true := by
    rw [hv]
    show (!v.isEmpty) = true
    rw [Bool.not_eq_true', Bool.eq_false_iff]
    intro hemp
    exact hne ((String.isEmpty_iff v).mp hemp)
  by_cases hinc : truthy p.encryptionValidation = true
  · by_cases hne2 : existingMarker s.db = p.encryptionValidation
    · by_cases hwf : wf = true
      · subst hwf
        simp [upload_changes, htr, hinc, hne2] at hok
      · have hwf2 : wf = false := by revert hwf; cases wf <;> simp
        subst hwf2
        rw [upload_ok_state s vid p now hok]
        show existingMarker (uploadBody s.db p now) = some v
        unfold existingMarker
        rw [uploadBody_meta, if_pos hinc]
        rw [← hne2, hv]
        rfl
    · simp [upload_changes, htr, hinc, hne2] at hok
  · have hinc2 : truthy p.encryptionValidation = false := by
      revert hinc; cases truthy p.encryptionValidation <;> simp
    simp [upload_changes, htr, hinc2] at hok

theorem upload_preserves_nonempty_marker_witness :
    existingMarker
        (upload_changes ⟨⟨[], [], 1, some (some "A")⟩, []⟩ "v" ⟨[], some "A"⟩ "t" false).2.db
      = some "A" :=
  upload_preserves_nonempty_marker _ "v" ⟨[], some "A"⟩ "t" false "A" rfl (by decide) rfl

/-- C6 counterexample: on a vault with no stored marker, an upload that
supplies the empty-string marker succeeds but the marker is not persisted
(the write is guarded by Python truthiness), so the following state read
reports no marker instead of the supplied value. -/
theorem empty_marker_not_persisted :
    existingMarker (⟨⟨[], [], 1, none⟩, []⟩ : ServerState).db = none ∧
    (upload_changes ⟨⟨[], [], 1, none⟩, []⟩ "v" ⟨[], some ""⟩ "t" false).1 = .ok () ∧
    (download_state (upload_changes ⟨⟨[], [], 1, none⟩, []⟩ "v" ⟨[], some ""⟩ "t" false).2
        "v").1.encryptionValidation = none ∧
    (none : Option String) ≠ some "" :=
  ⟨rfl, rfl, rfl, by decide⟩

/-- C6 amended: an upload to a vault whose stored marker is unset always
passes the gate; a truthy (non-empty) supplied marker is persisted, while
an absent or empty supplied marker leaves the stored marker unset, and a
subsequent state read reports exactly that stored value. -/
theorem upload_on_unset_marker
    (s : ServerState) (vid : String) (p : UploadChangesPayload) (now : String)
    (h : existingMarker s.db = none) :
    (upload_changes s vid p now false).1 = .ok () ∧
    (download_state (upload_changes s vid p now false).2 vid).1.encryptionValidation
      = (if truthy p.encryptionValidation then p.encryptionValidation else none) := by
  have htr : truthy (existingMarker s.db) = false := by rw [h]; rfl
  have hok : (upload_changes s vid p now false).1 = .ok () := by
    simp [upload_changes, htr]
  refine ⟨hok, ?_⟩
  rw [upload_ok_state s vid p now hok]
  have hc : get_cached_state vid (invalidate_state_cache vid s.cache) = none :=
    get_cached_invalidate vid s.cache
  unfold download_state
  rw [show (⟨uploadBody s.db p now, invalidate_state_cache vid s.cache⟩ : ServerState).cache
      = invalidate_state_cache vid s.cache from rfl, hc]
  show existingMarker (uploadBody s.db p now) = _
  unfold existingMarker
  rw [uploadBody_meta]
  by_cases hinc : truthy p.encryptionValidation = true
  · rw [if_pos hinc, if_pos hinc]
    rfl
  · rw [if_neg hinc, if_neg hinc]
    exact h

theorem upload_on_unset_marker_witness :
    (upload_changes ⟨⟨[], [], 1, none⟩, []⟩ "v" ⟨[], some "A"⟩ "t" false).1 = .ok () ∧
    (download_state (upload_changes ⟨⟨[], [], 1, none⟩, []⟩ "v" ⟨[], some "A"⟩ "t" false).2
        "v").1.encryptionValidation
      = (if truthy (some "A") then some "A" else none) :=
  upload_on_unset_marker _ "v" ⟨[], some "A"⟩ "t" rfl
